import Mathlib

/-!
Verification of the agency orchestrator core.

Shallow embedding of the routing/agent-loop/review pipeline, the tiered
vector memory, the resource governor and the task queue, translated from
the Rust sources (`src/orchestrator/supervisor.rs`, `src/memory/vector.rs`,
`src/orchestrator/homeostasis.rs`, `src/agent/mod.rs`).  Machine floats
(`f32`/`f64`) are modelled exactly over `ℚ`; byte strings over `List Nat`.
-/

set_option maxHeartbeats 1000000

namespace Agency

/-! ## Governor (src/orchestrator/homeostasis.rs) -/

/-- Embeds `HomeostasisEngine::calculate_target_concurrency`
(src/orchestrator/homeostasis.rs lines 32-43).  The source compares `f32`
CPU percentage and `f64` memory percentage against the literals 85.0, 90.0,
60.0 and 75.0, all exactly representable, with the strict `>` operator;
the comparison structure is modelled exactly over `ℚ`.
`(max_permits / 2).max(1)` is integer division followed by `max`. -/
def calculate_target_concurrency (cpu_usage : ℚ) (mem_used_pct : ℚ)
    (max_permits : Nat) : Nat :=
  if cpu_usage > 85 ∨ mem_used_pct > 90 then
    1
  else if cpu_usage > 60 ∨ mem_used_pct > 75 then
    Nat.max (max_permits / 2) 1
  else
    max_permits

/-! ## Character-boundary truncation (src/agent/mod.rs) -/

/-- A UTF-8 string modelled as its byte sequence (`str::len` in Rust counts
bytes, and the truncation logic under verification operates on byte
indices). -/
abbrev Utf8Bytes := List Nat

/-- Embeds `str::is_char_boundary`: index 0 is always a boundary, the index
just past the last byte is a boundary, an index beyond that is not, and an
interior index is a boundary exactly when its byte is not a UTF-8
continuation byte (`0x80..=0xBF`). -/
def is_char_boundary (s : Utf8Bytes) (i : Nat) : Bool :=
  if i = 0 then true
  else
    match s.get? i with
    | none => decide (i = s.length)
    | some b => !(decide (128 ≤ b) && decide (b < 192))

/-- Embeds the backwards scan `while !s.is_char_boundary(end) { end -= 1 }`
from `truncate` (src/agent/mod.rs lines 52-54). -/
def snap_to_boundary (s : Utf8Bytes) : Nat → Nat
  | 0 => 0
  | i + 1 => if is_char_boundary s (i + 1) then i + 1 else snap_to_boundary s i

/-- Embeds `s.replace('\n', " ")`: LF is a one-byte character (10) and a
space is the one-byte character 32, so on the byte level the replacement is
a pointwise map. -/
def replace_newlines (s : Utf8Bytes) : Utf8Bytes :=
  s.map (fun b => if b = 10 then 32 else b)

/-- Embeds `truncate` (src/agent/mod.rs lines 45-57).  Nat subtraction
models `usize::saturating_sub`; the trailing `"..."` is the three bytes
46,46,46. -/
def truncate (s : Utf8Bytes) (max_len : Nat) : Utf8Bytes :=
  let s := replace_newlines s
  if s.length ≤ max_len then s
  else
    let target_len := max_len - 3
    let e := snap_to_boundary s target_len
    s.take e ++ [46, 46, 46]

/-- Embeds the memory-context pruning in `Supervisor::handle`
(src/orchestrator/supervisor.rs lines 324-329): contexts longer than 1000
bytes go through `crate::agent::truncate(_, 1000)`. -/
def pruned_mem_context (mem_ctx : Utf8Bytes) : Utf8Bytes :=
  if mem_ctx.length > 1000 then truncate mem_ctx 1000 else mem_ctx

/-! ## Memory data model -/

/-- Modelled from the spec: `MemoryEntry` metadata.  The struct lives in
`src/memory/mod.rs`, which is not among the provided sources; the fields
follow spec section 3 (`agent`, `context`, `kind`, `importance ∈ [0,1]`,
`access_count : u64`).  The enum `Kind` is modelled as a string tag and
`f32` importance exactly over `ℚ`. -/
structure MemMetadata where
  agent : String
  context : String
  kind : String
  importance : ℚ
  access_count : Nat
  deriving Repr, DecidableEq

/-- Modelled from the spec: `MemoryEntry` (spec section 3); the defining
module `src/memory/mod.rs` is not among the provided sources.  Embedding
components and similarity are `f32` in the source, modelled exactly over
`ℚ`; timestamps are modelled as integer seconds. -/
structure MemoryEntry where
  id : String
  content : String
  embedding : Option (List ℚ)
  timestamp : Int
  metadata : MemMetadata
  query : Option String
  similarity : Option ℚ
  deriving Repr, DecidableEq

/-! ## Consolidation (src/memory/vector.rs) -/

/-- Seven days in seconds, the `chrono::Duration::days(7)` window used by
`consolidate` and `get_cold_memories`. -/
def seven_days : Int := 7 * 24 * 60 * 60

/-- Embeds the retain predicate of `LocalVectorMemory::consolidate`
(src/memory/vector.rs line 291):
`access_count > 5 || timestamp > week_ago || importance > 0.8`.
The `f32` literal `0.8` is modelled by the rational `4/5`. -/
def retain_predicate (now : Int) (e : MemoryEntry) : Bool :=
  decide (e.metadata.access_count > 5) ||
  decide (e.timestamp > now - seven_days) ||
  decide (e.metadata.importance > 4 / 5)

/-- Embeds `LocalVectorMemory::consolidate` (src/memory/vector.rs lines
277-299): below 100 entries it is a no-op returning 0; otherwise the HOT
vector is partitioned by the retain predicate, the retained part is kept
and the number of pruned (cold) entries is returned. -/
def consolidate (now : Int) (entries : List MemoryEntry) :
    Nat × List MemoryEntry :=
  if entries.length < 100 then (0, entries)
  else
    let p := entries.partition (retain_predicate now)
    (p.2.length, p.1)

/-- Embeds `LocalVectorMemory::prune` (src/memory/vector.rs lines 315-319):
`entries.retain(|e| !ids.contains(&e.id))`; `Vec::retain` keeps, in order,
exactly the elements satisfying the predicate. -/
def prune (ids : List String) (entries : List MemoryEntry) :
    List MemoryEntry :=
  entries.filter (fun e => !(ids.contains e.id))

/-! ## Vector search (src/memory/vector.rs) -/

/-- Embeds `LocalVectorMemory::dot_product` (src/memory/vector.rs lines
201-203): `a.iter().zip(b.iter()).map(|(x, y)| x * y).sum()`; `zip`
truncates to the shorter operand, as does `List.zipWith`. -/
def dot_product (a b : List ℚ) : ℚ :=
  (List.zipWith (fun x y => x * y) a b).sum

/-- Sum of squares of a vector; a stored embedding is L2-normalized exactly
when this is 1 (`LocalVectorMemory::normalize` divides by the square root
of this quantity). -/
def sum_sq (a : List ℚ) : ℚ :=
  (a.map (fun x => x * x)).sum

/-- Embeds the filter closure of `LocalVectorMemory::search`
(src/memory/vector.rs lines 235-239): optional context and kind must match
when given. -/
def search_filter (context : Option String) (kind : Option String)
    (e : MemoryEntry) : Bool :=
  (match context with
   | none => true
   | some c => e.metadata.context == c) &&
  (match kind with
   | none => true
   | some k => e.metadata.kind == k)

/-- Bumps `access_count` by one, the read-path mutation `search` applies to
each returned entry. -/
def bump_access (e : MemoryEntry) : MemoryEntry :=
  { e with metadata := { e.metadata with access_count := e.metadata.access_count + 1 } }

/-- Embeds `LocalVectorMemory::search` (src/memory/vector.rs lines
229-255) from the point where the normalized query embedding is available
(the embedder itself is an external model).  Entries are enumerated,
filtered by context/kind, scored by dot product against the query
embedding (entries without an embedding are skipped), sorted by descending
score, and the first `top_k` are returned with `similarity` populated and
`access_count` incremented; the incremented counts are also written back
to the store, whose updated entry vector is the second component. -/
def search (query_embedding : List ℚ) (entries : List MemoryEntry)
    (context : Option String) (kind : Option String) (top_k : Nat) :
    List MemoryEntry × List MemoryEntry :=
  let scored : List (ℚ × Nat) :=
    (entries.enum.filter (fun p => search_filter context kind p.2)).filterMap
      (fun p => p.2.embedding.map (fun emb => (dot_product query_embedding emb, p.1)))
  let sorted := scored.insertionSort (fun a b => a.1 ≥ b.1)
  let top := sorted.take top_k
  let results := top.filterMap (fun si =>
    (entries.get? si.2).map (fun e => { bump_access e with similarity := some si.1 }))
  let updated := entries.enum.map (fun p =>
    if (top.map (fun si => si.2)).contains p.1 then bump_access p.2 else p.2)
  (results, updated)

/-! ## Persistence (src/memory/vector.rs) -/

/-- The four-byte Zstd frame magic `28 B5 2F FD` that
`LocalVectorMemory::load` peeks at (src/memory/vector.rs line 158). -/
def zstd_magic : List Nat := [0x28, 0xB5, 0x2F, 0xFD]

/-- Embeds `LocalVectorMemory::load` (src/memory/vector.rs lines 146-176).
The external `zstd` and `bincode` crates and the `serde_json` fallback are
abstracted by decoder parameters: `zstd_decode` consumes a whole Zstd
stream (magic included) and yields the decompressed payload, and the two
entry decoders yield the entry vector.  The dispatch itself is the
repository's logic: if the first four bytes are the Zstd magic, decompress
and then bincode-decode; otherwise try bincode and fall back to the
textual JSON decoder (`or_else`). -/
def load_bytes (bincode_decode : List Nat → Option (List MemoryEntry))
    (zstd_decode : List Nat → Option (List Nat))
    (json_decode : List Nat → Option (List MemoryEntry))
    (bytes : List Nat) : Option (List MemoryEntry) :=
  if bytes.take 4 = zstd_magic then
    (zstd_decode bytes).bind bincode_decode
  else
    match bincode_decode bytes with
    | some entries => some entries
    | none => json_decode bytes

/-- Embeds `LocalVectorMemory::persist` (src/memory/vector.rs lines
259-275): the entry vector is always bincode-encoded and wrapped in a Zstd
stream at compression level 3 (`Encoder::new(writer, 3)`); the external
encoders are abstracted by parameters, `zstd_encode` taking the level. -/
def persist_bytes (bincode_encode : List MemoryEntry → List Nat)
    (zstd_encode : Nat → List Nat → List Nat)
    (entries : List MemoryEntry) : List Nat :=
  zstd_encode 3 (bincode_encode entries)

/-! ## Reviews and consensus (src/orchestrator/supervisor.rs) -/

/-- Modelled from the spec: the result of `Reflector::review_response` and
`Reflector::analyze_failure` (spec section 4.4: `{ analysis, should_retry }`);
`src/agent/reflection.rs` is not among the provided sources. -/
structure ReviewResult where
  analysis : String
  should_retry : Bool
  deriving Repr, DecidableEq

/-- The six agent roles (spec section 3, `RoutingDecision`). -/
inductive AgentType where
  | GeneralChat
  | Coder
  | Researcher
  | Reasoner
  | Planner
  | Reviewer
  deriving Repr, DecidableEq

/-- Embeds the vote extraction of `Supervisor::handle`
(src/orchestrator/supervisor.rs lines 643-644):
`rev.as_ref().map(|r| r.should_retry).unwrap_or(false)`.  A review whose
120-second `tokio::time::timeout` expired, or which returned an error, is
`None` after `.ok().and_then(|r| r.ok())` and therefore votes `false`. -/
def review_vote (rev : Option ReviewResult) : Bool :=
  (rev.map (fun r => r.should_retry)).getD false

/-- Embeds the consensus-review decision of the unplanned path of
`Supervisor::handle` (src/orchestrator/supervisor.rs lines 624-644) for a
successful response: the GeneralChat branch breaks out without any review,
otherwise the response is retried iff either critic votes `should_retry`. -/
def consensus_review_retry (agent_role : AgentType)
    (rev1 rev2 : Option ReviewResult) : Bool :=
  if agent_role = AgentType.GeneralChat then false
  else review_vote rev1 || review_vote rev2

/-- Embeds the plan-step consensus match of `Supervisor::handle`
(src/orchestrator/supervisor.rs lines 447-452), where the two review
results arrive as `Result` values and any `Err` votes `false`. -/
def step_consensus_retry (r1 q : Except String ReviewResult) : Bool :=
  match r1, q with
  | .ok a, .ok b => a.should_retry || b.should_retry
  | .ok a, _ => a.should_retry
  | _, .ok b => b.should_retry
  | _, _ => false

/-- Vote of a `Result`-shaped review: an error contributes `false`. -/
def review_vote_except (r : Except String ReviewResult) : Bool :=
  match r with
  | .ok a => a.should_retry
  | .error _ => false

/-! ## ReAct agent loop (src/orchestrator/supervisor.rs, src/agent/mod.rs) -/

/-- A tool invocation proposed by the model (spec section 3, `ToolCall`);
parameters are modelled as their serialized text. -/
structure ToolCall where
  name : String
  parameters : String
  deriving Repr, DecidableEq

/-- Modelled from the spec: what `agent.step` returns.  The ReAct parser
(`src/agent/react.rs`) is not among the provided sources; per spec
sections 3 and 4.3 a model reply carries a thought, the proposed tool
calls, the final flag and an optional answer, while observations are
appended by the loop as tools execute. -/
structure ModelReply where
  thought : String
  actions : List ToolCall
  is_final : Bool
  answer : Option String
  deriving Repr, DecidableEq

/-- A recorded ReAct step (spec section 3, `ReActStep`). -/
structure ReActStep where
  thought : String
  actions : List ToolCall
  observations : List String
  is_final : Bool
  answer : Option String
  deriving Repr, DecidableEq

/-- An agent's reply as recorded before any tool has run: empty
observations. -/
def reply_to_step (r : ModelReply) : ReActStep :=
  { thought := r.thought
    actions := r.actions
    observations := []
    is_final := r.is_final
    answer := r.answer }

/-- `AgentResponse` (spec section 3). -/
structure AgentResponse where
  success : Bool
  answer : String
  steps : List ReActStep
  agent_role : AgentType
  error : Option String
  deriving Repr, DecidableEq

/-- Modelled from the spec: `AgentResponse::success(answer, steps, role)`
(constructor defined in the absent `src/agent/react.rs`; shape from spec
section 3). -/
def AgentResponse.success_mk (answer : String) (steps : List ReActStep)
    (agent_role : AgentType) : AgentResponse :=
  { success := true, answer := answer, steps := steps
    agent_role := agent_role, error := none }

/-- Modelled from the spec: `AgentResponse::failure(error, steps, role)`
(constructor defined in the absent `src/agent/react.rs`; shape from spec
sections 3 and 7: a failed response carries the error string). -/
def AgentResponse.failure_mk (error : String) (steps : List ReActStep)
    (agent_role : AgentType) : AgentResponse :=
  { success := false, answer := "", steps := steps
    agent_role := agent_role, error := some error }

/-- The fixed action-keyword set of `is_action_query`
(src/agent/mod.rs lines 59-66). -/
def action_keywords : List String :=
  ["create", "write", "search", "analyze", "run", "execute", "list",
   "find", "build", "forge", "calculate", "read", "check", "entropy"]

/-- Embeds `str::to_lowercase`, modelled as per-character lowercasing of
the character sequence (the action keywords are ASCII, for which this
agrees with Rust's Unicode lowercasing). -/
def lower_string (s : String) : String :=
  String.mk (s.data.map Char.toLower)

/-- Embeds `str::contains` for substring needles: the needle occurs as a
contiguous infix of the haystack. -/
def contains_substring (hay needle : String) : Bool :=
  decide (needle.data <:+: hay.data)

/-- Embeds `is_action_query` (src/agent/mod.rs lines 59-66): the lowercased
query contains one of the fixed action keywords. -/
def is_action_query (query : String) : Bool :=
  action_keywords.any (fun k => contains_substring (lower_string query) k)

/-- The system hint injected by the laziness filter
(src/orchestrator/supervisor.rs line 545). -/
def laziness_hint : String :=
  "SYSTEM HINT: Your query requires ACTION (creating, analyzing, searching). You MUST use tools first. Do NOT provide a final answer until you have observations from the required tools (e.g., forge_tool, code_exec, codebase_explorer)."

/-- The annotation appended to a rejected thought
(src/orchestrator/supervisor.rs line 548). -/
def laziness_rejection : String := " [REJECTED: No tool used. I must use tools.]"

/-- One attempt of the single-agent ReAct loop in `Supervisor::handle`
(src/orchestrator/supervisor.rs lines 526-609).  `replies k` is the model's
reply to the `k`-th `agent.step` call (the model is external); `exec_obs`
abstracts lines 565-592 and returns the single observation string recorded
for an executed action — the tool's summary, a `Tool execution failed: …`
message, or the `USER DENIED PERMISSION: …` text.  `iteration`, `steps`
and `max_iters` are as in the source; `calls` counts model invocations.
The laziness filter (lines 543-554) rewrites a premature final step into a
non-final one carrying the system hint as an extra observation and
`continue`s without incrementing `iteration`; it can only fire while
`steps` is empty.  On loop exhaustion the attempt yields
`AgentResponse::failure("Max iterations reached", …)` (line 608). -/
def agent_loop_aux (replies : Nat → ModelReply) (exec_obs : ToolCall → String)
    (query : String) (agent_role : AgentType) (max_iters : Nat)
    (iteration : Nat) (calls : Nat) (steps : List ReActStep) :
    AgentResponse × Nat :=
  if _h : iteration < max_iters then
    let step := reply_to_step (replies calls)
    if hlazy : step.is_final = true ∧ steps = [] ∧ is_action_query query = true then
      let step' : ReActStep :=
        { step with is_final := false, thought := step.thought ++ laziness_rejection }
      let hint_step : ReActStep :=
        { step' with observations := step'.observations ++ [laziness_hint] }
      agent_loop_aux replies exec_obs query agent_role max_iters
        iteration (calls + 1) (steps ++ [hint_step])
    else if step.is_final then
      let answer := step.answer.getD step.thought
      (AgentResponse.success_mk answer (steps ++ [step]) agent_role, calls + 1)
    else if !step.actions.isEmpty then
      let observations := step.actions.map exec_obs
      let recorded : ReActStep :=
        { thought := step.thought, actions := step.actions
          observations := observations, is_final := false, answer := none }
      agent_loop_aux replies exec_obs query agent_role max_iters
        (iteration + 1) (calls + 1) (steps ++ [recorded])
    else
      agent_loop_aux replies exec_obs query agent_role max_iters
        (iteration + 1) (calls + 1) (steps ++ [step])
  else
    (AgentResponse.failure_mk "Max iterations reached" steps agent_role, calls)
termination_by 2 * (max_iters - iteration) + (if steps = [] then 1 else 0)
decreasing_by
  all_goals first
  | (have hs : steps = [] := hlazy.2.1
     subst hs
     simp <;> omega)
  | (split <;> split <;> omega)
  | (split <;> omega)
  | omega

/-- The loop as entered by `Supervisor::handle`: `iteration = 0`, empty
step history and `max_iters = 5` (src/orchestrator/supervisor.rs lines
522-528). -/
def agent_loop (replies : Nat → ModelReply) (exec_obs : ToolCall → String)
    (query : String) (agent_role : AgentType) : AgentResponse × Nat :=
  agent_loop_aux replies exec_obs query agent_role 5 0 0 []

/-! ## Task queue (spec section 4.6)

The task queue implementation is not among the provided sources (only its
tests and callers are), so it is modelled from the spec: a table of task
rows, and `dequeue` as one atomic transaction that selects the oldest
Pending row with highest priority and transitions it to Running.  Because
the spec requires every queue operation to be a single database
transaction, a concurrent history of N dequeuers is an interleaving of N
atomic dequeue steps, i.e. some sequential composition; `dequeueN`
quantifies over all of them at once. -/

/-- Modelled from the spec: task status (spec section 3, `Task`). -/
inductive TaskStatus where
  | pending
  | running
  | completed
  | failed
  deriving Repr, DecidableEq

/-- Modelled from the spec: a queue row (spec section 3 and section 6,
`Task`: id, kind, payload blob, status, priority, enqueued_at, attempts). -/
structure QueueTask where
  id : String
  kind : String
  payload : String
  status : TaskStatus
  priority : Int
  enqueued_at : Nat
  attempts : Nat
  deriving Repr, DecidableEq

/-- Modelled from the spec: `b` is served before `a` — strictly higher
priority, or equal priority and strictly earlier enqueue time ("the oldest
Pending with highest priority", spec section 4.6). -/
def task_preferred (b a : QueueTask) : Bool :=
  decide (b.priority > a.priority) ||
  (decide (b.priority = a.priority) && decide (b.enqueued_at < a.enqueued_at))

/-- Modelled from the spec: the index and row `dequeue` selects — the best
Pending row under `task_preferred`, the earliest row winning remaining
ties. -/
def best_pending : List QueueTask → Option (Nat × QueueTask)
  | [] => none
  | t :: ts =>
    let rest := (best_pending ts).map (fun p => (p.1 + 1, p.2))
    if t.status = TaskStatus.pending then
      match rest with
      | none => some (0, t)
      | some (j, u) => if task_preferred u t then some (j, u) else some (0, t)
    else rest

/-- Marks a row Running. -/
def mark_running (t : QueueTask) : QueueTask :=
  { t with status := TaskStatus.running }

/-- Modelled from the spec: `dequeue` (spec section 4.6) — atomically
transition the selected Pending row to Running and return its id; with no
Pending row the queue is unchanged and nothing is returned. -/
def dequeue (ts : List QueueTask) : Option String × List QueueTask :=
  match best_pending ts with
  | none => (none, ts)
  | some (i, t) => (some t.id, ts.set i (mark_running t))

/-- `n` atomic dequeue steps in sequence, collecting the returned ids; this
is the generic shape of any interleaving of `n` concurrent dequeuers, each
performing one atomic `dequeue` transaction. -/
def dequeueN : Nat → List QueueTask → List String × List QueueTask
  | 0, ts => ([], ts)
  | n + 1, ts =>
    let r := dequeue ts
    let rest := dequeueN n r.2
    (r.1.toList ++ rest.1, rest.2)

/-- Number of rows with a given status. -/
def count_status (s : TaskStatus) (ts : List QueueTask) : Nat :=
  (ts.filter (fun t => t.status = s)).length

/-- The ids of the Pending rows, in row order. -/
def pending_ids (ts : List QueueTask) : List String :=
  (ts.filter (fun t => t.status = TaskStatus.pending)).map (fun t => t.id)

/-- A metadata record with neutral values, for concrete instances. -/
def sampleMeta : MemMetadata :=
  { agent := "", context := "", kind := "", importance := 0, access_count := 0 }

/-- A minimal concrete entry with a given id. -/
def sampleEntry (id : String) : MemoryEntry :=
  { id := id, content := "", embedding := none, timestamp := 0
    metadata := sampleMeta, query := none, similarity := none }

/-! ## C6 — Governor boundary -/

/-- C6 counterexample: at exactly cpu = 85.0 and mem = 90.0 with MAX = 10
the permit calculation yields 5, not the crisis permit 1 — both threshold
comparisons in `calculate_target_concurrency` are strict, so the boundary
is exclusive, contradicting the claimed inclusive boundary. -/
theorem C6_counterexample :
    calculate_target_concurrency 85 90 10 = 5 ∧
    calculate_target_concurrency 85 90 10 ≠ 1 := by
  constructor <;> norm_num [calculate_target_concurrency]

/-- C6 (amended): evaluated at exactly cpu = 85.0 and mem = 90.0, the
permit calculation yields the high-load tier `max(MAX/2, 1)`, not the
crisis permit 1: both threshold predicates of
`calculate_target_concurrency` are exclusive (strict `>`) at their
boundary, matching the code's own unit test which probes 90.0/95.0 for
crisis. -/
theorem C6_boundary_exclusive (max_permits : Nat) :
    calculate_target_concurrency 85 90 max_permits =
      Nat.max (max_permits / 2) 1 := by
  norm_num [calculate_target_concurrency]

/-! ## C10 — prune -/

/-- C10: `prune(ids)` removes exactly the stored entries whose id occurs in
`ids`; the remaining entries are unchanged in every field and keep their
original relative order (the result is a sublist of the original vector),
and pruning ids not present in the store leaves the store identical. -/
theorem C10_prune_exact (ids : List String) (entries : List MemoryEntry) :
    (∀ e, e ∈ prune ids entries ↔ e ∈ entries ∧ e.id ∉ ids) ∧
    (prune ids entries).Sublist entries ∧
    ((∀ e ∈ entries, e.id ∉ ids) → prune ids entries = entries) := by
  refine ⟨?_, List.filter_sublist _, ?_⟩
  · intro e
    simp [prune, List.mem_filter]
  · intro h
    apply List.filter_eq_self.mpr
    intro a ha
    simp [h a ha]

/-- C10 witness: a concrete store whose single entry has id "b"; pruning
the absent id "a" leaves the store identical, and the entry survives with
all fields intact. -/
theorem C10_prune_exact_witness :
    prune ["a"] [sampleEntry "b"] = [sampleEntry "b"] ∧
    (sampleEntry "b" ∈ prune ["a"] [sampleEntry "b"] ↔
      sampleEntry "b" ∈ [sampleEntry "b"] ∧ (sampleEntry "b").id ∉ ["a"]) :=
  ⟨(C10_prune_exact ["a"] [sampleEntry "b"]).2.2 (by decide),
   (C10_prune_exact ["a"] [sampleEntry "b"]).1 (sampleEntry "b")⟩

/-! ## C2 — consolidation -/

/-- C2: for every HOT store state, `consolidate()` keeps exactly the
entries satisfying the retain predicate, removes exactly those failing all
three retain conditions (`access_count > 5`, `timestamp > now − 7 days`,
`importance > 0.8`) and returns the number removed; below 100 entries it
removes nothing and returns 0. -/
theorem C2_consolidate (now : Int) (entries : List MemoryEntry) :
    (entries.length < 100 → consolidate now entries = (0, entries)) ∧
    (100 ≤ entries.length →
      (consolidate now entries).2 = entries.filter (retain_predicate now) ∧
      (consolidate now entries).1 =
        (entries.filter (fun e => !(retain_predicate now e))).length) ∧
    (∀ e, retain_predicate now e = false ↔
      (e.metadata.access_count ≤ 5 ∧ e.timestamp ≤ now - seven_days ∧
       e.metadata.importance ≤ 4 / 5)) := by
  refine ⟨?_, ?_, ?_⟩
  · intro h
    simp [consolidate, h]
  · intro h
    have h' : ¬ entries.length < 100 := by omega
    simp [consolidate, h', List.partition_eq_filter_filter, Function.comp]
    rfl
  · intro e
    simp [retain_predicate, not_lt, and_assoc]

/-- C2 witness: the empty store (fewer than 100 entries) is a no-op, and a
store of 100 frequently-accessed entries is consolidated with zero
removals per the filter characterization. -/
theorem C2_consolidate_witness :
    consolidate 0 [] = (0, []) ∧
    (100 ≤ (List.replicate 100 (sampleEntry "x")).length ∧
      (consolidate 0 (List.replicate 100 (sampleEntry "x"))).2 =
        (List.replicate 100 (sampleEntry "x")).filter (retain_predicate 0)) ∧
    (retain_predicate 0 (sampleEntry "x") = false ↔
      ((sampleEntry "x").metadata.access_count ≤ 5 ∧
       (sampleEntry "x").timestamp ≤ 0 - seven_days ∧
       (sampleEntry "x").metadata.importance ≤ 4 / 5)) :=
  ⟨(C2_consolidate 0 []).1 (by decide),
   ⟨by decide,
    ((C2_consolidate 0 (List.replicate 100 (sampleEntry "x"))).2.1
      (by simp)).1⟩,
   (C2_consolidate 0 (List.replicate 100 (sampleEntry "x"))).2.2 (sampleEntry "x")⟩

/-! ## C8 — truncate safety -/

/-- Index 0 is always a character boundary. -/
theorem is_char_boundary_zero (s : Utf8Bytes) : is_char_boundary s 0 = true := by
  simp [is_char_boundary]

/-- The backwards scan never moves the index forward. -/
theorem snap_to_boundary_le (s : Utf8Bytes) : ∀ i, snap_to_boundary s i ≤ i := by
  intro i
  induction i with
  | zero => simp [snap_to_boundary]
  | succ n ih =>
    simp only [snap_to_boundary]
    split
    · exact Nat.le_refl _
    · exact Nat.le_trans ih (Nat.le_succ n)

/-- The backwards scan always lands on a character boundary. -/
theorem snap_to_boundary_is_boundary (s : Utf8Bytes) :
    ∀ i, is_char_boundary s (snap_to_boundary s i) = true := by
  intro i
  induction i with
  | zero => simpa [snap_to_boundary] using is_char_boundary_zero s
  | succ n ih =>
    simp only [snap_to_boundary]
    split
    · assumption
    · exact ih

/-- C8: for every input byte string and every length limit, the cut index
computed by `truncate` lands on a character boundary and stays within
bounds (so the slice `&s[..end]` cannot panic and never splits a multibyte
codepoint); long inputs are cut at that index and `"..."` appended, short
inputs pass through; and the 1000-character memory-context truncation in
`Supervisor::handle` is exactly this function applied at limit 1000. -/
theorem C8_truncate_safe (s : Utf8Bytes) (max_len : Nat) :
    is_char_boundary (replace_newlines s)
      (snap_to_boundary (replace_newlines s) (max_len - 3)) = true ∧
    snap_to_boundary (replace_newlines s) (max_len - 3) ≤ max_len - 3 ∧
    ((replace_newlines s).length > max_len →
      snap_to_boundary (replace_newlines s) (max_len - 3) <
        (replace_newlines s).length ∧
      truncate s max_len =
        (replace_newlines s).take
          (snap_to_boundary (replace_newlines s) (max_len - 3)) ++
          [46, 46, 46]) ∧
    ((replace_newlines s).length ≤ max_len → truncate s max_len = replace_newlines s) ∧
    (s.length > 1000 → pruned_mem_context s = truncate s 1000) := by
  refine ⟨snap_to_boundary_is_boundary _ _, snap_to_boundary_le _ _, ?_, ?_, ?_⟩
  · intro h
    constructor
    · have := snap_to_boundary_le (replace_newlines s) (max_len - 3)
      omega
    · simp only [truncate]
      have h' : ¬ (replace_newlines s).length ≤ max_len := by omega
      simp [h']
  · intro h
    simp [truncate, h]
  · intro h
    simp [pruned_mem_context, h]

/-- C8 witness: the ten-byte string "ABCD" ++ "α" ++ "EFGH" (the Greek α is
the two bytes 206,177) truncated at limit 8: the raw cut index 5 would
fall inside α, and the scan snaps it back to the boundary 4. -/
theorem C8_truncate_safe_witness :
    (is_char_boundary (replace_newlines [65, 66, 67, 68, 206, 177, 69, 70, 71, 72])
      (snap_to_boundary (replace_newlines [65, 66, 67, 68, 206, 177, 69, 70, 71, 72]) (8 - 3)) = true ∧
     (replace_newlines [65, 66, 67, 68, 206, 177, 69, 70, 71, 72]).length > 8 ∧
     truncate [65, 66, 67, 68, 206, 177, 69, 70, 71, 72] 8 = [65, 66, 67, 68, 46, 46, 46]) :=
  ⟨(C8_truncate_safe [65, 66, 67, 68, 206, 177, 69, 70, 71, 72] 8).1,
   by decide,
   by
     have := ((C8_truncate_safe [65, 66, 67, 68, 206, 177, 69, 70, 71, 72] 8).2.2.1
       (by decide)).2
     rw [this]
     decide⟩

/-! ## C1 — consensus review -/

/-- C1: for a successful response not routed to GeneralChat, the consensus
review triggers a retry iff at least one of the two critic reviews votes
`should_retry`; a review that timed out (its 120-second wrapper expired)
or errored arrives as `none` and votes `false`; GeneralChat responses skip
review entirely (no retry is ever triggered).  The plan-step variant,
whose reviews arrive as `Result` values, implements the same strict-OR
with errors voting `false`. -/
theorem C1_consensus_strict_or :
    (∀ (role : AgentType) (rev1 rev2 : Option ReviewResult),
      role ≠ AgentType.GeneralChat →
      (consensus_review_retry role rev1 rev2 = true ↔
        review_vote rev1 = true ∨ review_vote rev2 = true)) ∧
    (∀ rev1 rev2, consensus_review_retry AgentType.GeneralChat rev1 rev2 = false) ∧
    review_vote none = false ∧
    (∀ r, review_vote (some r) = r.should_retry) ∧
    (∀ r1 q, step_consensus_retry r1 q =
      (review_vote_except r1 || review_vote_except q)) := by
  refine ⟨?_, ?_, rfl, fun _ => rfl, ?_⟩
  · intro role rev1 rev2 hrole
    simp [consensus_review_retry, hrole]
  · intro rev1 rev2
    simp [consensus_review_retry]
  · intro r1 q
    cases r1 <;> cases q <;> simp [step_consensus_retry, review_vote_except]

/-- C1 witness: a Coder-routed response with one accepting critic and one
rejecting critic is retried (strict OR), while a timed-out first critic
and an accepting second critic is not. -/
theorem C1_consensus_strict_or_witness :
    (consensus_review_retry AgentType.Coder
        (some { analysis := "ok", should_retry := false })
        (some { analysis := "bad", should_retry := true }) = true ↔
      review_vote (some { analysis := "ok", should_retry := false }) = true ∨
      review_vote (some { analysis := "bad", should_retry := true }) = true) ∧
    consensus_review_retry AgentType.GeneralChat
      (some { analysis := "bad", should_retry := true })
      (some { analysis := "bad", should_retry := true }) = false :=
  ⟨C1_consensus_strict_or.1 AgentType.Coder
      (some { analysis := "ok", should_retry := false })
      (some { analysis := "bad", should_retry := true }) (by decide),
   C1_consensus_strict_or.2.1
      (some { analysis := "bad", should_retry := true })
      (some { analysis := "bad", should_retry := true })⟩

/-! ## C3 — snapshot round trip -/

/-- C3: `persist()` always emits the Zstd level-3 wrapping of the
bincode-encoded entry vector; `load()` dispatches on the leading four
magic bytes — `28 B5 2F FD` selects the Zstd decoder, any other prefix
first tries the uncompressed binary decoder and falls back to the textual
JSON decoder — and for any codecs satisfying the libraries' round-trip
contract on the persisted sequence, a persist followed by a fresh load
yields the same entries, hence the same entry count with embeddings
identical bit-for-bit. -/
theorem C3_persist_load_round_trip
    (bincode_encode : List MemoryEntry → List Nat)
    (bincode_decode : List Nat → Option (List MemoryEntry))
    (zstd_encode : Nat → List Nat → List Nat)
    (zstd_decode : List Nat → Option (List Nat))
    (json_decode : List Nat → Option (List MemoryEntry))
    (entries : List MemoryEntry)
    (hmagic : (zstd_encode 3 (bincode_encode entries)).take 4 = zstd_magic)
    (hz : zstd_decode (zstd_encode 3 (bincode_encode entries)) =
      some (bincode_encode entries))
    (hb : bincode_decode (bincode_encode entries) = some entries) :
    persist_bytes bincode_encode zstd_encode entries =
      zstd_encode 3 (bincode_encode entries) ∧
    load_bytes bincode_decode zstd_decode json_decode
      (persist_bytes bincode_encode zstd_encode entries) = some entries ∧
    (load_bytes bincode_decode zstd_decode json_decode
      (persist_bytes bincode_encode zstd_encode entries)).map List.length =
      some entries.length ∧
    (load_bytes bincode_decode zstd_decode json_decode
      (persist_bytes bincode_encode zstd_encode entries)).map
        (List.map MemoryEntry.embedding) =
      some (entries.map MemoryEntry.embedding) ∧
    (∀ bytes es, bytes.take 4 ≠ zstd_magic → bincode_decode bytes = some es →
      load_bytes bincode_decode zstd_decode json_decode bytes = some es) ∧
    (∀ bytes, bytes.take 4 ≠ zstd_magic → bincode_decode bytes = none →
      load_bytes bincode_decode zstd_decode json_decode bytes = json_decode bytes) := by
  have hload : load_bytes bincode_decode zstd_decode json_decode
      (persist_bytes bincode_encode zstd_encode entries) = some entries := by
    simp [load_bytes, persist_bytes, hmagic, hz, hb]
  refine ⟨rfl, hload, ?_, ?_, ?_, ?_⟩
  · rw [hload, Option.map_some']
  · rw [hload, Option.map_some']
  · intro bytes es hm hbd
    simp [load_bytes, hm, hbd]
  · intro bytes hm hbd
    simp [load_bytes, hm, hbd]

/-- A degenerate but contract-satisfying codec pair for the witness: the
Zstd model prepends the real frame magic, the binary codec maps the
one-entry store to the byte 1. -/
def witness_store : List MemoryEntry := [sampleEntry "w"]

/-- Witness bincode encoder. -/
def witness_benc : List MemoryEntry → List Nat := fun _ => [1]

/-- Witness bincode decoder. -/
def witness_bdec : List Nat → Option (List MemoryEntry) :=
  fun b => if b = [1] then some witness_store else none

/-- Witness Zstd encoder: frame magic followed by the payload. -/
def witness_zenc : Nat → List Nat → List Nat := fun _ p => zstd_magic ++ p

/-- Witness Zstd decoder: strip the frame magic. -/
def witness_zdec : List Nat → Option (List Nat) := fun b => some (b.drop 4)

/-- C3 witness: with the concrete codecs above, persisting the one-entry
store and loading it back returns it unchanged. -/
theorem C3_persist_load_round_trip_witness :
    load_bytes witness_bdec witness_zdec (fun _ => none)
      (persist_bytes witness_benc witness_zenc witness_store) =
      some witness_store :=
  (C3_persist_load_round_trip witness_benc witness_bdec witness_zenc
    witness_zdec (fun _ => none) witness_store
    (by decide) (by decide)
    (by simp [witness_bdec, witness_benc])).2.1

/-! ## C7 — iteration cap -/

/-- When the model never produces a terminal step the loop runs exactly its
remaining `max_iters - iteration` iterations, records one step per
iteration, consumes one model call per iteration, and finishes as
`AgentResponse::failure("Max iterations reached", …)`. -/
theorem agent_loop_aux_max_iterations
    (replies : Nat → ModelReply) (exec_obs : ToolCall → String)
    (query : String) (agent_role : AgentType) (max_iters : Nat)
    (hnf : ∀ k, (replies k).is_final = false) :
    ∀ (d iteration calls : Nat) (steps : List ReActStep),
      max_iters - iteration = d →
      (agent_loop_aux replies exec_obs query agent_role max_iters
          iteration calls steps).1.success = false ∧
      (agent_loop_aux replies exec_obs query agent_role max_iters
          iteration calls steps).1.error = some "Max iterations reached" ∧
      (agent_loop_aux replies exec_obs query agent_role max_iters
          iteration calls steps).1.steps.length = steps.length + d ∧
      (agent_loop_aux replies exec_obs query agent_role max_iters
          iteration calls steps).2 = calls + d := by
  intro d
  induction d with
  | zero =>
    intro iteration calls steps hd
    have hge : ¬ iteration < max_iters := by omega
    rw [agent_loop_aux]
    simp [dif_neg hge, AgentResponse.failure_mk]
  | succ d ih =>
    intro iteration calls steps hd
    have hlt : iteration < max_iters := by omega
    have hsf : (reply_to_step (replies calls)).is_final = false := by
      simp [reply_to_step, hnf calls]
    rw [agent_loop_aux]
    rw [dif_pos hlt]
    rw [dif_neg (by simp [hsf])]
    rw [if_neg (by simp [hsf])]
    split
    · obtain ⟨h1, h2, h3, h4⟩ := ih (iteration + 1) (calls + 1) _ (by omega)
      refine ⟨h1, h2, ?_, ?_⟩
      · rw [h3]; simp; omega
      · rw [h4]; omega
    · obtain ⟨h1, h2, h3, h4⟩ := ih (iteration + 1) (calls + 1) _ (by omega)
      refine ⟨h1, h2, ?_, ?_⟩
      · rw [h3]; simp; omega
      · rw [h4]; omega

/-- C7: if the agent loop never receives a terminal step from the model, it
stops after exactly 5 iterations (`max_iters = 5` in the source), having
recorded 5 steps and made 5 model calls, and returns a failed
`AgentResponse` (`success = false`) whose error is
"Max iterations reached". -/
theorem C7_max_iterations (replies : Nat → ModelReply)
    (exec_obs : ToolCall → String) (query : String) (agent_role : AgentType)
    (hnf : ∀ k, (replies k).is_final = false) :
    (agent_loop replies exec_obs query agent_role).1.success = false ∧
    (agent_loop replies exec_obs query agent_role).1.error =
      some "Max iterations reached" ∧
    (agent_loop replies exec_obs query agent_role).1.steps.length = 5 ∧
    (agent_loop replies exec_obs query agent_role).2 = 5 := by
  have h := agent_loop_aux_max_iterations replies exec_obs query agent_role 5
    hnf 5 0 0 [] rfl
  simpa [agent_loop] using h

/-- A model that always proposes the same single non-final tool action. -/
def stubborn_replies : Nat → ModelReply := fun _ =>
  { thought := "working"
    actions := [{ name := "web_search", parameters := "q" }]
    is_final := false
    answer := none }

/-- C7 witness: the always-non-final model drives the loop to the
5-iteration failure. -/
theorem C7_max_iterations_witness :
    (∀ k, (stubborn_replies k).is_final = false) ∧
    ((agent_loop stubborn_replies (fun _ => "ok") "q" AgentType.Researcher).1.success = false ∧
     (agent_loop stubborn_replies (fun _ => "ok") "q" AgentType.Researcher).1.error =
       some "Max iterations reached" ∧
     (agent_loop stubborn_replies (fun _ => "ok") "q" AgentType.Researcher).1.steps.length = 5 ∧
     (agent_loop stubborn_replies (fun _ => "ok") "q" AgentType.Researcher).2 = 5) :=
  ⟨fun _ => rfl,
   C7_max_iterations stubborn_replies (fun _ => "ok") "q" AgentType.Researcher
     (fun _ => rfl)⟩

/-! ## C4 — actions/observations balance -/

/-- Shape of a recorded non-final step: balanced actions/observations, or
the laziness-filter rewrite whose observations are exactly the system
hint. -/
def step_obs_ok (st : ReActStep) : Prop :=
  st.is_final = false →
    st.actions.length = st.observations.length ∨
    st.observations = [laziness_hint]

/-- Every step the loop records preserves `step_obs_ok`. -/
theorem agent_loop_aux_obs_invariant
    (replies : Nat → ModelReply) (exec_obs : ToolCall → String)
    (query : String) (agent_role : AgentType) (max_iters : Nat) :
    ∀ (n iteration calls : Nat) (steps : List ReActStep),
      2 * (max_iters - iteration) + (if steps = [] then 1 else 0) ≤ n →
      (∀ st ∈ steps, step_obs_ok st) →
      ∀ st ∈ (agent_loop_aux replies exec_obs query agent_role max_iters
          iteration calls steps).1.steps, step_obs_ok st := by
  intro n
  induction n with
  | zero =>
    intro iteration calls steps hm h
    have hge : ¬ iteration < max_iters := by
      by_cases hse : steps = [] <;> simp [hse] at hm <;> omega
    rw [agent_loop_aux]
    simp only [dif_neg hge]
    exact h
  | succ n ih =>
    intro iteration calls steps hm h
    by_cases hlt : iteration < max_iters
    · by_cases hlazy : (reply_to_step (replies calls)).is_final = true ∧
          steps = [] ∧ is_action_query query = true
      · rw [agent_loop_aux]
        simp only [dif_pos hlt, dif_pos hlazy]
        apply ih
        · have hse : steps = [] := hlazy.2.1
          subst hse
          simp at hm ⊢
          omega
        · intro st hst
          rcases List.mem_append.mp hst with h1 | h2
          · exact h st h1
          · have hs := List.mem_singleton.mp h2
            subst hs
            intro _
            right
            simp [reply_to_step]
      · by_cases hf : (reply_to_step (replies calls)).is_final = true
        · rw [agent_loop_aux]
          simp only [dif_pos hlt, dif_neg hlazy, if_pos hf]
          intro st hst
          rcases List.mem_append.mp hst with h1 | h2
          · exact h st h1
          · have hs := List.mem_singleton.mp h2
            subst hs
            intro hcontra
            rw [hf] at hcontra
            cases hcontra
        · have hm' : 2 * (max_iters - (iteration + 1)) +
              (if ([] : List ReActStep) = [] then 1 else 0) ≤ n := by
            by_cases hse : steps = [] <;> simp [hse] at hm <;> simp <;> omega
          by_cases hact : (!(reply_to_step (replies calls)).actions.isEmpty) = true
          · rw [agent_loop_aux]
            simp only [dif_pos hlt, dif_neg hlazy, if_neg hf, if_pos hact]
            apply ih
            · have haux : (if steps ++
                  [{ thought := (reply_to_step (replies calls)).thought,
                     actions := (reply_to_step (replies calls)).actions,
                     observations := List.map exec_obs (reply_to_step (replies calls)).actions,
                     is_final := false, answer := none }] = ([] : List ReActStep)
                  then 1 else 0) = 0 := by simp
              rw [haux]
              simp at hm'
              omega
            · intro st hst
              rcases List.mem_append.mp hst with h1 | h2
              · exact h st h1
              · have hs := List.mem_singleton.mp h2
                subst hs
                intro _
                left
                simp
          · rw [agent_loop_aux]
            simp only [dif_pos hlt, dif_neg hlazy, if_neg hf, if_neg hact]
            apply ih
            · have haux : (if steps ++ [reply_to_step (replies calls)] =
                  ([] : List ReActStep) then 1 else 0) = 0 := by simp
              rw [haux]
              simp at hm'
              omega
            · intro st hst
              rcases List.mem_append.mp hst with h1 | h2
              · exact h st h1
              · have hs := List.mem_singleton.mp h2
                subst hs
                intro _
                left
                have hempty : (reply_to_step (replies calls)).actions.isEmpty = true := by
                  revert hact
                  cases (reply_to_step (replies calls)).actions.isEmpty <;> simp
                have hnil : (replies calls).actions = [] :=
                  List.isEmpty_iff.mp hempty
                simp [reply_to_step, hnil]
    · rw [agent_loop_aux]
      simp only [dif_neg hlt]
      exact h

/-- The always-terminal model reply used by the C4 run. -/
def lazy_replies : Nat → ModelReply := fun _ =>
  { thought := "done", actions := [], is_final := true, answer := some "created" }

/-- The action-laden query of spec scenario 3. -/
def lazy_query : String := "create a file foo.txt with content bar"

/-- The step the laziness filter records: non-final, no actions, and the
system hint as its single observation. -/
def lazy_hint_step : ReActStep :=
  { thought := "done" ++ laziness_rejection
    actions := []
    observations := [laziness_hint]
    is_final := false
    answer := some "created" }

/-- The terminal step of the second model call. -/
def lazy_final_step : ReActStep :=
  { thought := "done", actions := [], observations := [], is_final := true
    answer := some "created" }

/-- Concrete run: a terminal first reply to an action query trips the
laziness filter once; the recorded trace is the hint step followed by the
accepted terminal step. -/
theorem lazy_run_steps :
    (agent_loop lazy_replies (fun _ => "") lazy_query AgentType.Coder).1.steps =
      [lazy_hint_step, lazy_final_step] := by
  have hq : is_action_query "create a file foo.txt with content bar" = true := by
    decide
  simp [agent_loop, agent_loop_aux, lazy_replies, reply_to_step, hq,
    AgentResponse.success_mk, lazy_hint_step, lazy_final_step,
    lazy_query]

/-- C4 counterexample: in the recorded trace of the scenario-3 run, the
laziness-hint step is non-final with zero actions but one observation, so
the claimed equality `|actions| = |observations|` fails for a recorded
non-final step. -/
theorem C4_counterexample :
    ¬ (∀ st ∈ (agent_loop lazy_replies (fun _ => "") lazy_query
        AgentType.Coder).1.steps,
        st.is_final = false → st.actions.length = st.observations.length) := by
  intro hall
  have hmem : lazy_hint_step ∈ (agent_loop lazy_replies (fun _ => "")
      lazy_query AgentType.Coder).1.steps := by
    rw [lazy_run_steps]
    simp
  have h := hall lazy_hint_step hmem rfl
  simp [lazy_hint_step] at h

/-- C4 (amended): every non-final `ReActStep` recorded in an
`AgentResponse`'s step list has as many observations as actions, except
the step rewritten by the laziness filter, whose observations are exactly
the single injected system hint (one more observation than its actions). -/
theorem C4_obs_balance_amended (replies : Nat → ModelReply)
    (exec_obs : ToolCall → String) (query : String) (agent_role : AgentType) :
    ∀ st ∈ (agent_loop replies exec_obs query agent_role).1.steps,
      st.is_final = false →
      st.actions.length = st.observations.length ∨
      st.observations = [laziness_hint] := by
  intro st hst
  exact agent_loop_aux_obs_invariant replies exec_obs query agent_role 5
    11 0 0 [] (by simp) (by intro s hs; cases hs) st hst

/-- C4 witness: the amended balance holds at the hint step of the concrete
scenario-3 run. -/
theorem C4_obs_balance_amended_witness :
    lazy_hint_step ∈ (agent_loop lazy_replies (fun _ => "") lazy_query
      AgentType.Coder).1.steps ∧
    (lazy_hint_step.actions.length = lazy_hint_step.observations.length ∨
     lazy_hint_step.observations = [laziness_hint]) :=
  ⟨by rw [lazy_run_steps]; simp,
   C4_obs_balance_amended lazy_replies (fun _ => "") lazy_query AgentType.Coder
     lazy_hint_step (by rw [lazy_run_steps]; simp) rfl⟩

/-! ## C5 — similarity bounds -/

/-- The zipWith-product sum written as a `Finset.range` sum. -/
theorem dot_product_eq_sum_range (a : List ℚ) :
    ∀ b : List ℚ, dot_product a b =
      ∑ i ∈ Finset.range (min a.length b.length), a.getD i 0 * b.getD i 0 := by
  induction a with
  | nil => intro b; simp [dot_product]
  | cons x xs ih =>
    intro b
    cases b with
    | nil => simp [dot_product]
    | cons y ys =>
      simp only [dot_product, List.zipWith_cons_cons, List.sum_cons,
        List.length_cons]
      rw [Nat.succ_min_succ, Finset.sum_range_succ']
      simp only [List.getD_cons_succ, List.getD_cons_zero]
      have h := ih ys
      simp only [dot_product] at h
      rw [h]
      ring

/-- The sum of squares written as a `Finset.range` sum. -/
theorem sum_sq_eq_sum_range (a : List ℚ) :
    sum_sq a = ∑ i ∈ Finset.range a.length, a.getD i 0 * a.getD i 0 := by
  induction a with
  | nil => simp [sum_sq]
  | cons x xs ih =>
    simp only [sum_sq, List.map_cons, List.sum_cons, List.length_cons]
    rw [Finset.sum_range_succ']
    simp only [List.getD_cons_succ, List.getD_cons_zero]
    have h := ih
    simp only [sum_sq] at h
    rw [h]
    ring

/-- Cauchy–Schwarz for the list dot product. -/
theorem dot_product_sq_le (a b : List ℚ) :
    dot_product a b ^ 2 ≤ sum_sq a * sum_sq b := by
  rw [dot_product_eq_sum_range, sum_sq_eq_sum_range, sum_sq_eq_sum_range]
  have hcs := Finset.sum_mul_sq_le_sq_mul_sq
    (Finset.range (min a.length b.length))
    (fun i => a.getD i 0) (fun i => b.getD i 0)
  refine hcs.trans ?_
  have ha : ∑ i ∈ Finset.range (min a.length b.length), a.getD i 0 ^ 2 ≤
      ∑ i ∈ Finset.range a.length, a.getD i 0 * a.getD i 0 := by
    simp only [pow_two]
    apply Finset.sum_le_sum_of_subset_of_nonneg
    · exact Finset.range_subset.mpr (Nat.min_le_left _ _)
    · intro i _ _
      exact mul_self_nonneg _
  have hb : ∑ i ∈ Finset.range (min a.length b.length), b.getD i 0 ^ 2 ≤
      ∑ i ∈ Finset.range b.length, b.getD i 0 * b.getD i 0 := by
    simp only [pow_two]
    apply Finset.sum_le_sum_of_subset_of_nonneg
    · exact Finset.range_subset.mpr (Nat.min_le_right _ _)
    · intro i _ _
      exact mul_self_nonneg _
  have hb0 : 0 ≤ ∑ i ∈ Finset.range (min a.length b.length), b.getD i 0 ^ 2 :=
    Finset.sum_nonneg (fun i _ => sq_nonneg _)
  have ha0 : 0 ≤ ∑ i ∈ Finset.range a.length, a.getD i 0 * a.getD i 0 := by
    apply Finset.sum_nonneg
    intro i _
    exact mul_self_nonneg _
  exact mul_le_mul ha hb hb0 ha0

/-- Dot products of unit vectors lie in `[-1, 1]`. -/
theorem dot_product_unit_bounds (a b : List ℚ)
    (ha : sum_sq a = 1) (hb : sum_sq b = 1) :
    -1 ≤ dot_product a b ∧ dot_product a b ≤ 1 := by
  have h := dot_product_sq_le a b
  rw [ha, hb, mul_one] at h
  exact abs_le.mp ((sq_le_one_iff_abs_le_one _).mp h)

/-- The second component of an enumerated pair is a member of the list. -/
theorem snd_mem_of_mem_enumFrom {α : Type} :
    ∀ {l : List α} {n : Nat} {p : Nat × α}, p ∈ l.enumFrom n → p.2 ∈ l := by
  intro l
  induction l with
  | nil => intro n p h; cases h
  | cons x xs ih =>
    intro n p h
    cases h with
    | head => exact List.mem_cons_self _ _
    | tail _ h => exact List.mem_cons_of_mem _ (ih h)

/-- Every similarity populated by `search` is the dot product of the query
embedding with the embedding of some stored entry. -/
theorem search_result_similarity (qe : List ℚ) (entries : List MemoryEntry)
    (context kind : Option String) (top_k : Nat) :
    ∀ r ∈ (search qe entries context kind top_k).1, ∃ e ∈ entries, ∃ emb,
      e.embedding = some emb ∧ r.similarity = some (dot_product qe emb) := by
  intro r hr
  simp only [search] at hr
  rcases List.mem_filterMap.mp hr with ⟨si, hsi, hmap⟩
  rcases Option.map_eq_some'.mp hmap with ⟨e0, hget, hre⟩
  have hsorted := List.mem_of_mem_take hsi
  have hscored := (List.mem_insertionSort _).mp hsorted
  rcases List.mem_filterMap.mp hscored with ⟨p, hp, hpm⟩
  rcases Option.map_eq_some'.mp hpm with ⟨emb, hemb, hsieq⟩
  have hpe : p.2 ∈ entries := snd_mem_of_mem_enumFrom (List.mem_filter.mp hp).1
  subst hsieq
  subst hre
  exact ⟨p.2, hpe, emb, hemb, rfl⟩

/-- An entry whose unit-norm embedding points opposite to the query. -/
def neg_entry : MemoryEntry :=
  { sampleEntry "n" with embedding := some [(-1 : ℚ), 0] }

/-- The row `search` returns in the C5 run: the stored entry with its
access count bumped and similarity `-1` populated. -/
def neg_result : MemoryEntry :=
  { neg_entry with
    metadata := { neg_entry.metadata with access_count := 1 }
    similarity := some (-1) }

/-- Evaluating the C5 run: the opposite-pointing entry comes back with
similarity `-1`. -/
theorem search_neg_run :
    (search [(1 : ℚ), 0] [neg_entry] none none 1).1 = [neg_result] := by
  norm_num [search, neg_entry, neg_result, sampleEntry, sampleMeta,
    search_filter, bump_access, dot_product, List.insertionSort,
    List.orderedInsert, List.enum, List.enumFrom]
  rfl

/-- C5 counterexample: with the unit-norm stored embedding `[-1, 0]` and
the unit-norm query embedding `[1, 0]`, `search` returns the entry with
similarity `-1 < 0`; the claimed lower bound `0 ≤ similarity` is false. -/
theorem C5_counterexample :
    sum_sq [(1 : ℚ), 0] = 1 ∧
    sum_sq [(-1 : ℚ), 0] = 1 ∧
    ((search [(1 : ℚ), 0] [neg_entry] none none 1).1.map
      MemoryEntry.similarity) = [some (-1)] ∧
    ((-1 : ℚ) < 0) := by
  refine ⟨by norm_num [sum_sq], by norm_num [sum_sq], ?_, by norm_num⟩
  rw [search_neg_run]
  rfl

/-- C5 (amended): given that all stored embeddings and the query embedding
are unit-norm, every similarity populated by `search` satisfies
`-1 ≤ similarity ≤ 1` (hence `similarity ≤ 1 + ε`, but the claimed lower
bound 0 must be weakened to -1); in the exact-arithmetic model the
similarity is a rational number, so NaN cannot arise. -/
theorem C5_similarity_bounds (qe : List ℚ) (entries : List MemoryEntry)
    (context kind : Option String) (top_k : Nat)
    (hq : sum_sq qe = 1)
    (hents : ∀ e ∈ entries, ∀ emb, e.embedding = some emb → sum_sq emb = 1) :
    ∀ r ∈ (search qe entries context kind top_k).1, ∀ s,
      r.similarity = some s → -1 ≤ s ∧ s ≤ 1 := by
  intro r hr s hs
  rcases search_result_similarity qe entries context kind top_k r hr with
    ⟨e, he, emb, hemb, hsim⟩
  rw [hsim] at hs
  have hs' : s = dot_product qe emb := by
    injection hs.symm
  subst hs'
  exact dot_product_unit_bounds qe emb hq (hents e he emb hemb)

/-- C5 witness: the amended bounds instantiated at the concrete run. -/
theorem C5_similarity_bounds_witness : -1 ≤ (-1 : ℚ) ∧ (-1 : ℚ) ≤ 1 :=
  C5_similarity_bounds [(1 : ℚ), 0] [neg_entry] none none 1
    (by norm_num [sum_sq])
    (by
      intro e he emb hemb
      have he' : e = neg_entry := List.mem_singleton.mp he
      subst he'
      have hemb' : emb = [(-1 : ℚ), 0] := by
        have : some emb = some [(-1 : ℚ), 0] := by
          rw [← hemb]
          rfl
        injection this
      subst hemb'
      norm_num [sum_sq])
    neg_result (by rw [search_neg_run]; exact List.mem_singleton.mpr rfl)
    (-1) rfl

/-! ## C9 — dequeue mutual exclusion -/

/-- Status count over a cons cell. -/
theorem count_status_cons (s : TaskStatus) (hd : QueueTask) (tl : List QueueTask) :
    count_status s (hd :: tl) =
      (if hd.status = s then 1 else 0) + count_status s tl := by
  by_cases h : hd.status = s <;> simp [count_status, List.filter_cons, h] <;> omega

/-- Pending ids over a cons cell. -/
theorem pending_ids_cons (hd : QueueTask) (tl : List QueueTask) :
    pending_ids (hd :: tl) =
      (if hd.status = TaskStatus.pending then [hd.id] else []) ++ pending_ids tl := by
  by_cases h : hd.status = TaskStatus.pending <;>
    simp [pending_ids, List.filter_cons, h]

/-- The row `best_pending` selects really is in the table, at the reported
index, and is Pending. -/
theorem best_pending_spec :
    ∀ {ts : List QueueTask} {i : Nat} {t : QueueTask},
      best_pending ts = some (i, t) →
      ts.get? i = some t ∧ t.status = TaskStatus.pending := by
  intro ts
  induction ts with
  | nil => intro i t h; cases h
  | cons hd tl ih =>
    intro i t h
    simp only [best_pending] at h
    by_cases hpd : hd.status = TaskStatus.pending
    · rw [if_pos hpd] at h
      cases hbp : best_pending tl with
      | none =>
        rw [hbp] at h
        simp only [Option.map_none'] at h
        have hi : 0 = i ∧ hd = t := by
          have := Option.some.inj h
          exact ⟨congrArg Prod.fst this, congrArg Prod.snd this⟩
        obtain ⟨hi0, hhd⟩ := hi
        subst hi0
        subst hhd
        exact ⟨rfl, hpd⟩
      | some p =>
        obtain ⟨j, u⟩ := p
        rw [hbp] at h
        simp only [Option.map_some'] at h
        by_cases hpref : task_preferred u hd = true
        · rw [if_pos hpref] at h
          have := Option.some.inj h
          have hj : j + 1 = i := congrArg Prod.fst this
          have hu : u = t := congrArg Prod.snd this
          subst hj
          subst hu
          obtain ⟨hg, hpu⟩ := ih hbp
          exact ⟨hg, hpu⟩
        · rw [if_neg hpref] at h
          have := Option.some.inj h
          have hi0 : 0 = i := congrArg Prod.fst this
          have hhd : hd = t := congrArg Prod.snd this
          subst hi0
          subst hhd
          exact ⟨rfl, hpd⟩
    · rw [if_neg hpd] at h
      cases hbp : best_pending tl with
      | none =>
        rw [hbp] at h
        cases h
      | some p =>
        obtain ⟨j, u⟩ := p
        rw [hbp] at h
        simp only [Option.map_some'] at h
        have := Option.some.inj h
        have hj : j + 1 = i := congrArg Prod.fst this
        have hu : u = t := congrArg Prod.snd this
        subst hj
        subst hu
        obtain ⟨hg, hpu⟩ := ih hbp
        exact ⟨hg, hpu⟩

/-- If no row is selected, no row is Pending. -/
theorem best_pending_none :
    ∀ {ts : List QueueTask}, best_pending ts = none →
      count_status TaskStatus.pending ts = 0 := by
  intro ts
  induction ts with
  | nil => intro _; simp [count_status]
  | cons hd tl ih =>
    intro h
    simp only [best_pending] at h
    by_cases hpd : hd.status = TaskStatus.pending
    · rw [if_pos hpd] at h
      cases hbp : best_pending tl with
      | none => rw [hbp] at h; simp at h
      | some p =>
        obtain ⟨j, u⟩ := p
        rw [hbp] at h
        simp only [Option.map_some'] at h
        split at h <;> cases h
    · rw [if_neg hpd] at h
      cases hbp : best_pending tl with
      | none =>
        rw [count_status_cons, if_neg hpd, ih hbp]
      | some p =>
        rw [hbp] at h
        simp at h

/-- The id of a Pending row belongs to the pending-id list. -/
theorem id_mem_pending_ids {ts : List QueueTask} {i : Nat} {t : QueueTask}
    (hget : ts.get? i = some t) (hp : t.status = TaskStatus.pending) :
    t.id ∈ pending_ids ts := by
  have hmem : t ∈ ts := List.get?_mem hget
  exact List.mem_map.mpr ⟨t, List.mem_filter.mpr ⟨hmem, by simp [hp]⟩, rfl⟩

/-- The pending-id list inherits id uniqueness from the table. -/
theorem pending_ids_nodup {ts : List QueueTask}
    (hnd : (ts.map (fun x => x.id)).Nodup) : (pending_ids ts).Nodup := by
  have hsub : (ts.filter (fun t => t.status = TaskStatus.pending)).Sublist ts :=
    List.filter_sublist _
  have hmapsub := hsub.map (fun x => x.id)
  exact List.Nodup.sublist hmapsub hnd

/-- Marking one Pending row Running: the running count goes up by one, the
pending count down by one, all row ids are preserved, and with unique ids
the pending-id list loses exactly the marked id. -/
theorem set_mark_facts :
    ∀ (ts : List QueueTask) (i : Nat) (t : QueueTask),
      ts.get? i = some t → t.status = TaskStatus.pending →
      (ts.map (fun x => x.id)).Nodup →
      count_status TaskStatus.running (ts.set i (mark_running t)) =
        count_status TaskStatus.running ts + 1 ∧
      count_status TaskStatus.pending (ts.set i (mark_running t)) + 1 =
        count_status TaskStatus.pending ts ∧
      (ts.set i (mark_running t)).map (fun x => x.id) =
        ts.map (fun x => x.id) ∧
      pending_ids (ts.set i (mark_running t)) = (pending_ids ts).erase t.id := by
  intro ts
  induction ts with
  | nil => intro i t hget; cases hget
  | cons hd tl ih =>
    intro i t hget hp hnd
    cases i with
    | zero =>
      have hhd : hd = t := Option.some.inj hget
      subst hhd
      refine ⟨?_, ?_, ?_, ?_⟩
      · rw [List.set_cons_zero]
        simp [count_status_cons, hp, mark_running] <;> omega
      · rw [List.set_cons_zero]
        simp [count_status_cons, hp, mark_running] <;> omega
      · rw [List.set_cons_zero]
        simp [mark_running]
      · rw [List.set_cons_zero]
        simp [pending_ids_cons, hp, mark_running, List.erase_cons_head]
    | succ j =>
      have hget' : tl.get? j = some t := hget
      have hnd' : (tl.map (fun x => x.id)).Nodup := (List.nodup_cons.mp hnd).2
      obtain ⟨h1, h2, h3, h4⟩ := ih j t hget' hp hnd'
      have hne : hd.id ≠ t.id := by
        have hmem : t ∈ tl := List.get?_mem hget'
        have hidmem : t.id ∈ tl.map (fun x => x.id) :=
          List.mem_map.mpr ⟨t, hmem, rfl⟩
        intro hcontra
        apply (List.nodup_cons.mp hnd).1
        show hd.id ∈ List.map (fun x => x.id) tl
        rw [hcontra]
        exact hidmem
      refine ⟨?_, ?_, ?_, ?_⟩
      · rw [List.set_cons_succ, count_status_cons, count_status_cons, h1]
        omega
      · rw [List.set_cons_succ, count_status_cons, count_status_cons]
        omega
      · rw [List.set_cons_succ]
        simp only [List.map_cons]
        rw [h3]
      · rw [List.set_cons_succ, pending_ids_cons, pending_ids_cons, h4]
        by_cases hpd : hd.status = TaskStatus.pending
        · rw [if_pos hpd]
          simp only [List.singleton_append]
          rw [List.erase_cons]
          simp [hne]
        · rw [if_neg hpd]
          simp

/-- C9: modelling each `dequeue` as the atomic transaction the spec
requires, any interleaving of N concurrent dequeuers on a table of rows
with unique ids and M Pending rows hands out exactly `min N M` task ids,
all distinct, all previously Pending, and transitions exactly that many
rows to Running — no two dequeuers ever observe the same row as
Running. -/
theorem C9_dequeue_mutual_exclusion (n : Nat) :
    ∀ ts : List QueueTask, (ts.map (fun t => t.id)).Nodup →
      (dequeueN n ts).1.length =
        min n (count_status TaskStatus.pending ts) ∧
      (dequeueN n ts).1.Nodup ∧
      (∀ idv ∈ (dequeueN n ts).1, idv ∈ pending_ids ts) ∧
      count_status TaskStatus.running (dequeueN n ts).2 =
        count_status TaskStatus.running ts +
          min n (count_status TaskStatus.pending ts) := by
  induction n with
  | zero =>
    intro ts _
    simp [dequeueN]
  | succ n ih =>
    intro ts hnd
    cases hbp : best_pending ts with
    | none =>
      have hM0 := best_pending_none hbp
      obtain ⟨g1, g2, g3, g4⟩ := ih ts hnd
      rw [hM0] at g1 g4
      refine ⟨?_, ?_, ?_, ?_⟩ <;>
        simp only [dequeueN, dequeue, hbp, Option.toList_none, List.nil_append,
          hM0]
      · rw [g1]; omega
      · exact g2
      · exact g3
      · rw [g4]; omega
    | some p =>
      obtain ⟨i, t⟩ := p
      obtain ⟨hget, hp⟩ := best_pending_spec hbp
      obtain ⟨h1, h2, h3, h4⟩ := set_mark_facts ts i t hget hp hnd
      have hnd' : ((ts.set i (mark_running t)).map (fun x => x.id)).Nodup := by
        rw [h3]; exact hnd
      obtain ⟨g1, g2, g3, g4⟩ := ih (ts.set i (mark_running t)) hnd'
      have hM1 : 1 ≤ count_status TaskStatus.pending ts := by omega
      have htid : t.id ∈ pending_ids ts := id_mem_pending_ids hget hp
      have hpnodup : (pending_ids ts).Nodup := pending_ids_nodup hnd
      refine ⟨?_, ?_, ?_, ?_⟩ <;>
        simp only [dequeueN, dequeue, hbp, Option.toList_some,
          List.singleton_append]
      · simp only [List.length_cons]
        rw [g1]
        omega
      · rw [List.nodup_cons]
        refine ⟨?_, g2⟩
        intro hcontra
        have := g3 t.id hcontra
        rw [h4] at this
        exact ((hpnodup.mem_erase_iff).mp this).1 rfl
      · intro idv hidv
        rcases List.mem_cons.mp hidv with heq | hmem
        · exact heq ▸ htid
        · have := g3 idv hmem
          rw [h4] at this
          exact List.mem_of_mem_erase this
      · rw [g4, h1]
        omega

/-- A three-row table with unique ids, two rows Pending. -/
def witness_queue : List QueueTask :=
  [{ id := "a", kind := "k", payload := "", status := TaskStatus.pending
     priority := 1, enqueued_at := 0, attempts := 0 },
   { id := "b", kind := "k", payload := "", status := TaskStatus.completed
     priority := 0, enqueued_at := 1, attempts := 0 },
   { id := "c", kind := "k", payload := "", status := TaskStatus.pending
     priority := 0, enqueued_at := 2, attempts := 0 }]

/-- C9 witness: three concurrent dequeuers on the three-row table with two
Pending rows obtain exactly `min 3 2 = 2` distinct previously-Pending ids
and leave exactly two rows Running. -/
theorem C9_dequeue_mutual_exclusion_witness :
    (witness_queue.map (fun t => t.id)).Nodup ∧
    ((dequeueN 3 witness_queue).1.length =
      min 3 (count_status TaskStatus.pending witness_queue) ∧
     (dequeueN 3 witness_queue).1.Nodup ∧
     (∀ idv ∈ (dequeueN 3 witness_queue).1, idv ∈ pending_ids witness_queue) ∧
     count_status TaskStatus.running (dequeueN 3 witness_queue).2 =
       count_status TaskStatus.running witness_queue +
         min 3 (count_status TaskStatus.pending witness_queue)) :=
  ⟨by decide, C9_dequeue_mutual_exclusion 3 witness_queue (by decide)⟩

end Agency
